import Mathlib

/-!
Verification of the scan engine in `src/ping-server/main.ts` (a Deno ICMP ping
server) against its natural-language specification.

The embedding works at the level of JavaScript runtime semantics:

* JS strings are Lean `String`s; character-level operations (`split`, `trim`,
  `includes`) are modelled over `String.data : List Char`.
* JS `Number(...)` and `parseInt(...)` are modelled on the decimal-integer
  fragment actually exercised by the program (`Option Int`, `none` = NaN);
  32-bit coercions (`ToInt32`/`ToUint32`, as performed by `<<`, `|`, `&`,
  `>>>`) are modelled as bit patterns in `Nat` below `2^32`, with `sval`
  recovering the signed value used by JS comparisons and additions.
* The ICMP subprocess probe is modelled by an environment oracle
  (`ProbeEnv`): one outcome per address, chosen by the environment.
* The SSE streaming handler is modelled as a pure state machine producing the
  list of events enqueued to the consumer; consumer disconnection is modelled
  per WHATWG Streams semantics (enqueue onto a cancelled stream throws).
-/

set_option maxRecDepth 40000

/-! ## Character-level JavaScript string primitives -/

/-- Splitting accumulator: `splitOnCharAux sep l = (g, gs)` where `g :: gs` is
the list of separator-free groups of `l`, in order (models `String.prototype.split`
with a single-character separator). -/
def splitOnCharAux (sep : Char) : List Char → List Char × List (List Char)
  | [] => ([], [])
  | c :: cs =>
    let r := splitOnCharAux sep cs
    if c = sep then ([], r.1 :: r.2) else (c :: r.1, r.2)

/-- JS `s.split(sep)` for a one-character separator, over `List Char`. -/
def splitOnChar (sep : Char) (l : List Char) : List (List Char) :=
  (splitOnCharAux sep l).1 :: (splitOnCharAux sep l).2

/-- JS `String.prototype.trim` (restricted to ASCII whitespace, which is all the
program's inputs use). -/
def jsTrimChars (l : List Char) : List Char :=
  ((l.dropWhile Char.isWhitespace).reverse.dropWhile Char.isWhitespace).reverse

/-- Decimal value of a digit string. -/
def digitsVal (l : List Char) : Nat :=
  l.foldl (fun a c => 10 * a + (c.toNat - '0'.toNat)) 0

/-- Parse a non-empty all-digit string; `none` otherwise. -/
def parseDigits (l : List Char) : Option Nat :=
  if l ≠ [] ∧ l.all Char.isDigit then some (digitsVal l) else none

/-- JS `Number(s)` on the decimal-integer fragment: whitespace-only strings give
`0`, an optionally signed run of digits gives its value, anything else is NaN
(`none`). (Hex/exponent/fractional syntaxes never arise in this program's
address parsing, because octets are produced by splitting on `"."`.) -/
def jsNumber (l : List Char) : Option Int :=
  let t := jsTrimChars l
  if t = [] then some 0
  else
    match t with
    | '+' :: ds => (parseDigits ds).map (fun n => (n : Int))
    | '-' :: ds => (parseDigits ds).map (fun n => -(n : Int))
    | ds => (parseDigits ds).map (fun n => (n : Int))

/-- JS `parseInt(s)` (base 10): skip leading whitespace, optional sign, then the
longest leading digit run; NaN (`none`) if there are no digits. -/
def jsParseInt (l : List Char) : Option Int :=
  let t := l.dropWhile Char.isWhitespace
  match t with
  | '+' :: ds =>
    let d := ds.takeWhile Char.isDigit
    if d = [] then none else some ((digitsVal d : Nat) : Int)
  | '-' :: ds =>
    let d := ds.takeWhile Char.isDigit
    if d = [] then none else some (-((digitsVal d : Nat) : Int))
  | ds =>
    let d := ds.takeWhile Char.isDigit
    if d = [] then none else some ((digitsVal d : Nat) : Int)

/-! ## 32-bit coercions (JS `ToInt32` / `ToUint32` bit patterns) -/

/-- Bit pattern (as a `Nat` below `2^32`) of JS `ToInt32(x)` where `x` is a
number or NaN (`none`); NaN coerces to `0`. -/
def jsToInt32 (o : Option Int) : Nat :=
  match o with
  | none => 0
  | some i => (i % 4294967296).toNat

/-- Signed value of an int32 bit pattern (what JS `<`, `<=`, `+` see after a
bitwise operator produced the value). -/
def sval (n : Nat) : Int :=
  if n < 2147483648 then (n : Int) else (n : Int) - 4294967296

/-- Bit pattern of JS `ToUint32` of an integer (used by `>>>`). -/
def toUint32bits (i : Int) : Nat :=
  (i % 4294967296).toNat

/-- JS `x << k` on bit patterns. -/
def shl32 (n k : Nat) : Nat :=
  (n <<< k) % 4294967296

/-! ## `parseIPRange` (src/ping-server/main.ts lines 68-126) -/

/-- The numeric pipeline `(p[0] << 24) | (p[1] << 16) | (p[2] << 8) | p[3]`
applied to `s.split(".").map(Number)`; missing elements are `undefined`,
i.e. NaN. Result is the int32 bit pattern of the endpoint. -/
def ipStrBits (l : List Char) : Nat :=
  let parts := (splitOnChar '.' l).map jsNumber
  let oct := fun (k : Nat) => jsToInt32 (parts.getD k none)
  Nat.lor (Nat.lor (Nat.lor (shl32 (oct 0) 24) (shl32 (oct 1) 16)) (shl32 (oct 2) 8)) (oct 3)

/-- Decimal rendering of one octet (JS `String(n)` for a small natural). -/
def octetChars (n : Nat) : List Char :=
  (Nat.repr n).data

/-- `[(i>>>24)&255, (i>>>16)&255, (i>>>8)&255, i&255].join(".")` applied to an
ip bit pattern. -/
def formatIp (n : Nat) : String :=
  String.mk (octetChars (Nat.land (n >>> 24) 255) ++ '.' :: octetChars (Nat.land (n >>> 16) 255) ++
    '.' :: octetChars (Nat.land (n >>> 8) 255) ++ '.' :: octetChars (Nat.land n 255))

/-- The `"-"` arm of `parseIPRange`: `for (let i = startNum; i <= endNum; i++)`
pushes the dotted quad of each `i`. `startNum`/`endNum` are int32 bit patterns;
the loop compares and increments their signed values. -/
def expandRange (startBits endBits : Nat) : List String :=
  let s := sval startBits
  let e := sval endBits
  if s ≤ e then (List.range (e + 1 - s).toNat).map (fun (k : Nat) => formatIp (toUint32bits (s + k)))
  else []

/-- The `"/"` arm of `parseIPRange`: when `24 <= bits <= 32`, enumerate
`networkAddress + i` for `i = 1 .. numHosts - 2` where
`networkAddress = baseNum & (~0 << hostBits)`; otherwise (including NaN bits)
fall through and return nothing. -/
def expandPrefix (baseBits : Nat) (bits : Option Int) : List String :=
  match bits with
  | none => []
  | some b =>
    if 24 ≤ b ∧ b ≤ 32 then
      let hostBits := (32 - b).toNat
      let numHosts := 2 ^ hostBits
      let na := Nat.land baseBits (shl32 (toUint32bits (-1)) hostBits)
      (List.range (numHosts - 2)).map (fun (k : Nat) => formatIp (toUint32bits (sval na + (k + 1))))
    else []

/-- `parseIPRange(input)`: the `"-"` arm when the input contains a dash, else
the `"/"` arm when it contains a slash, else the trimmed input as a singleton
(no well-formedness check). Total: every input yields a list. -/
def parseIPRange (input : String) : List String :=
  if input.data.contains '-' then
    let parts := (splitOnChar '-' input.data).map jsTrimChars
    expandRange (ipStrBits (parts.getD 0 [])) (ipStrBits (parts.getD 1 []))
  else if input.data.contains '/' then
    let parts := splitOnChar '/' input.data
    expandPrefix (ipStrBits (parts.getD 0 [])) (jsParseInt (parts.getD 1 []))
  else
    [String.mk (jsTrimChars input.data)]

/-- Spec-side measure (§3 "Address ... total order by numeric value"): the full
32-bit numeric value of a dotted-quad string, used to state ordering claims
about the engine's output. -/
def specAddrValue (s : String) : Nat :=
  match (splitOnChar '.' s.data).map parseDigits with
  | [some a, some b, some c, some d] => ((a * 256 + b) * 256 + c) * 256 + d
  | _ => 0

/-! ## `pingHost` (src/ping-server/main.ts lines 27-65) -/

inductive PingStatus
  | active
  | inactive
  deriving DecidableEq

/-- The `PingResult` record of the server (`responseTime` is the optional
latency in ms, present only on the active arm; `method` is always `"icmp"`). -/
structure PingResult where
  ip : String
  status : PingStatus
  responseTime : Option Nat
  method : String
  deriving DecidableEq

/-- Outcome of the one `ping` subprocess run for an address, chosen by the
environment: the subprocess exits successfully after `elapsed` ms, exits
unsuccessfully (unreachable or `-W` timeout), or the spawn/await throws. -/
inductive ProbeEnv
  | success (elapsed : Nat)
  | failure
  | procError
  deriving DecidableEq

/-- `pingHost(ip, timeout)`: success yields `active` with the measured elapsed
time; a failing exit status or a caught exception both yield `inactive` with no
`responseTime`. Totality of this definition is the "never raises" contract. -/
def pingHost (ip : String) (env : ProbeEnv) : PingResult :=
  match env with
  | ProbeEnv.success t => { ip := ip, status := PingStatus.active, responseTime := some t, method := "icmp" }
  | ProbeEnv.failure => { ip := ip, status := PingStatus.inactive, responseTime := none, method := "icmp" }
  | ProbeEnv.procError => { ip := ip, status := PingStatus.inactive, responseTime := none, method := "icmp" }

/-- Count of `"active"` results (`results.filter(r => r.status === "active").length`). -/
def activeCount (rs : List PingResult) : Nat :=
  (rs.filter (fun r => r.status == PingStatus.active)).length

/-! ## Streaming scan handler (src/ping-server/main.ts lines 129-213) -/

/-- The tagged SSE messages the handler serializes (`progress`, `result`, and
the terminal `complete` summary; of the summary we model the fields the claims
are about: `totalHosts`, `activeHosts`, `results`). -/
inductive SseEvent
  | progress (current total : Nat) (currentIp : String)
  | result (r : PingResult)
  | complete (totalHosts activeHosts : Nat) (results : List PingResult)
  deriving DecidableEq

/-- How a streaming scan can stop short: `streamClosed` models the `TypeError`
thrown by `controller.enqueue` once the consumer has disconnected and the
stream is cancelled (WHATWG Streams); `scanAborted` models the spec's
`ScanAborted` condition — the code never constructs it. -/
inductive StreamErr
  | scanAborted
  | streamClosed
  deriving DecidableEq

/-- State of the `start(controller)` closure: events successfully enqueued to
the consumer, the `results` array, and (bookkeeping for the cancellation
claims) the addresses for which a `ping` subprocess was actually run. -/
structure SseState where
  delivered : List SseEvent
  results : List PingResult
  probed : List String
  deriving DecidableEq

def initSse : SseState :=
  { delivered := [], results := [], probed := [] }

/-- `controller.enqueue(ev)` against a consumer that accepts `cap` events
before disconnecting (`cap = none`: never disconnects): appends the event, or
throws once the consumer is gone. -/
def enqueueEv (cap : Option Nat) (ev : SseEvent) (st : SseState) : Except StreamErr SseState :=
  match cap with
  | none => Except.ok { st with delivered := st.delivered ++ [ev] }
  | some d =>
    if st.delivered.length < d then Except.ok { st with delivered := st.delivered ++ [ev] }
    else Except.error StreamErr.streamClosed

/-- One iteration of the inner `for (const ip of batch)` loop, with a thrown
enqueue error propagating (aborting all later iterations): enqueue the
`progress` event (`current` is `results.length + 1`), await `pingHost`, push
the result, enqueue the `result` event. -/
def scanIpO (cap : Option Nat) (env : String → ProbeEnv) (total : Nat)
    (out : SseState × Option StreamErr) (ip : String) : SseState × Option StreamErr :=
  match out with
  | (st, some e) => (st, some e)
  | (st, none) =>
    match enqueueEv cap (SseEvent.progress (st.results.length + 1) total ip) st with
    | Except.error e => (st, some e)
    | Except.ok st1 =>
      let r := pingHost ip (env ip)
      let st2 := { st1 with results := st1.results ++ [r], probed := st1.probed ++ [ip] }
      match enqueueEv cap (SseEvent.result r) st2 with
      | Except.error e => (st2, some e)
      | Except.ok st3 => (st3, none)

/-- Fuelled window slicing for `for (let i = 0; i < ips.length; i += batchSize)`
with `batch = ips.slice(i, i + batchSize)`. One fuel unit per loop iteration;
`l.length` units suffice whenever `bs ≥ 1`. For `bs = 0` the JS loop never
advances (it does not terminate); all theorems below assume a positive batch
size, so the `bs = 0` value of this function is never relied on. -/
def jsChunksF (bs : Nat) : Nat → List (String) → List (List String)
  | 0, _ => []
  | _, [] => []
  | fuel + 1, a :: l => (a :: l).take bs :: jsChunksF bs fuel ((a :: l).drop bs)

/-- The list of windows the outer loop processes. -/
def jsChunks (bs : Nat) (l : List String) : List (List String) :=
  jsChunksF bs l.length l

/-- The whole `start(controller)` body: both nested loops over the windows, then
the terminal `complete` summary (`totalHosts = results.length`,
`activeHosts = activeCount results`) and `controller.close()`. Returns the
final state and the error that aborted the body, if any. -/
def sseRunO (cap : Option Nat) (env : String → ProbeEnv) (ips : List String) (bs : Nat) :
    SseState × Option StreamErr :=
  let out := (jsChunks bs ips).foldl (fun o batch => batch.foldl (scanIpO cap env ips.length) o)
    (initSse, none)
  match out with
  | (st, some e) => (st, some e)
  | (st, none) =>
    match enqueueEv cap (SseEvent.complete st.results.length (activeCount st.results) st.results) st with
    | Except.error e => (st, some e)
    | Except.ok st2 => (st2, none)

/-- The event sequence a never-disconnecting consumer receives. -/
def sseEvents (env : String → ProbeEnv) (ips : List String) (bs : Nat) : List SseEvent :=
  (sseRunO none env ips bs).1.delivered

/-- Closed form of the per-address event segment: starting with `j` results
already recorded, each address contributes its `progress` event immediately
followed by its `result` event. -/
def traceFrom (env : String → ProbeEnv) (total : Nat) : Nat → List String → List SseEvent
  | _, [] => []
  | j, ip :: rest =>
    SseEvent.progress (j + 1) total ip :: SseEvent.result (pingHost ip (env ip)) ::
      traceFrom env total (j + 1) rest

/-- The address carried by a `result` event. -/
def resultIpOf : SseEvent → Option String
  | SseEvent.result r => some r.ip
  | _ => none

/-- Whether an event is the terminal `complete` summary. -/
def isCompleteEv : SseEvent → Bool
  | SseEvent.complete _ _ _ => true
  | _ => false

/-! ## JSON scan handler (src/ping-server/main.ts lines 216-265) -/

/-- `parseInt(a.ip.split(".")[3], 10)`: the sort key of the JSON handler's
comparator. (On the dotted quads the engine produces the key is always a
digit run; the NaN case is defaulted to `0`.) -/
def lastOctetKey (r : PingResult) : Int :=
  (jsParseInt ((splitOnChar '.' r.ip.data).getD 3 [])).getD 0

/-- Stable insertion of one element into a key-sorted list (earlier elements
stay before later elements with an equal key). -/
def jsSortInsert (a : PingResult) : List PingResult → List PingResult
  | [] => [a]
  | b :: l => if lastOctetKey a ≤ lastOctetKey b then a :: b :: l else b :: jsSortInsert a l

/-- `results.sort((a, b) => aNum - bNum)` where the keys are `lastOctetKey`:
a stable ascending sort by the last octet alone (ECMAScript `Array.prototype.sort`
is stable; V8 implements a stable merge sort, modelled here by an extensionally
equal stable insertion sort). -/
def jsSortByLastOctet : List PingResult → List PingResult
  | [] => []
  | a :: l => jsSortInsert a (jsSortByLastOctet l)

/-- The `results` collection of the JSON (synchronous) response: probe every
expanded address (the windowed `Promise.all` preserves input order, so the
accumulated array is in expansion order) and sort by the last octet. -/
def handleJsonScanResults (env : String → ProbeEnv) (ips : List String) : List PingResult :=
  jsSortByLastOctet (ips.map (fun ip => pingHost ip (env ip)))

/-! ## Request validation of the two handlers -/

/-- Raw query parameters of `GET /scan/stream` (absent parameter = `null`). -/
structure StreamParams where
  target : Option String
  timeout : Option String
  batchSize : Option String
  deriving DecidableEq

/-- What the streaming handler decides before any probing. -/
inductive StreamDecision
  | rejected400 (error : String)
  | proceed (ips : List String) (timeout batchSize : Option Int)
  deriving DecidableEq

/-- JS `x || d` for a nullable string: `null` and `""` are falsy. -/
def orDefaultStr (o : Option String) (d : String) : String :=
  match o with
  | none => d
  | some s => if s = "" then d else s

/-- Lines 132-144: parse `timeout`/`batchSize` with defaults `"2"`/`"10"`,
reject with 400 only when `target` is falsy, else expand the target and
proceed. No bound is checked on `timeout` or `batchSize`. -/
def handleStreamingScanGate (p : StreamParams) : StreamDecision :=
  let timeout := jsParseInt (orDefaultStr p.timeout "2").data
  let batchSize := jsParseInt (orDefaultStr p.batchSize "10").data
  match p.target with
  | none => StreamDecision.rejected400 "Target required"
  | some t =>
    if t = "" then StreamDecision.rejected400 "Target required"
    else StreamDecision.proceed (parseIPRange t) timeout batchSize

/-- Parsed JSON body of `POST /scan` (absent field = `undefined`). -/
structure JsonParams where
  target : Option String
  timeout : Option Int
  batchSize : Option Int
  deriving DecidableEq

/-- What the JSON handler decides before any probing. -/
inductive JsonDecision
  | rejected400 (error : String)
  | proceed (ips : List String) (timeout batchSize : Int)
  deriving DecidableEq

/-- Lines 216-229: destructure with defaults `timeout = 2`, `batchSize = 10`,
reject with 400 only when `target` is falsy, else expand and proceed. No bound
is checked on `timeout` or `batchSize`. -/
def handleJsonScanGate (p : JsonParams) : JsonDecision :=
  let timeout := p.timeout.getD 2
  let batchSize := p.batchSize.getD 10
  match p.target with
  | none => JsonDecision.rejected400 "Target required"
  | some t =>
    if t = "" then JsonDecision.rejected400 "Target required"
    else JsonDecision.proceed (parseIPRange t) timeout batchSize

/-- A probe environment in which every address is unreachable (used to
instantiate universally quantified theorems at concrete scans). -/
def envAllFail : String → ProbeEnv :=
  fun _ => ProbeEnv.failure

/-! ## Helper lemmas: splitting and the dotted-quad round trip -/

theorem splitOnCharAux_no_sep (sep : Char) (l : List Char) (h : sep ∉ l) :
    splitOnCharAux sep l = (l, []) := by
  induction l with
  | nil => rfl
  | cons c cs ih =>
    simp only [List.mem_cons, not_or] at h
    simp [splitOnCharAux, ih h.2, Ne.symm h.1]

theorem splitOnChar_no_sep (sep : Char) (l : List Char) (h : sep ∉ l) :
    splitOnChar sep l = [l] := by
  simp [splitOnChar, splitOnCharAux_no_sep sep l h]

theorem splitOnCharAux_append (sep : Char) (xs ys : List Char) (h : sep ∉ xs) :
    splitOnCharAux sep (xs ++ sep :: ys) =
      (xs, (splitOnCharAux sep ys).1 :: (splitOnCharAux sep ys).2) := by
  induction xs with
  | nil => simp [splitOnCharAux]
  | cons c cs ih =>
    simp only [List.mem_cons, not_or] at h
    simp [splitOnCharAux, ih h.2, Ne.symm h.1]

theorem splitOnChar_append (sep : Char) (xs ys : List Char) (h : sep ∉ xs) :
    splitOnChar sep (xs ++ sep :: ys) = xs :: splitOnChar sep ys := by
  simp [splitOnChar, splitOnCharAux_append sep xs ys h]

theorem octet_facts : ∀ x : Nat, x < 256 → parseDigits (octetChars x) = some x ∧ '.' ∉ octetChars x := by
  decide

theorem land255 (m : Nat) : Nat.land m 255 = m % 256 := by
  have h := Nat.and_pow_two_sub_one_eq_mod m 8
  norm_num at h
  exact h

theorem specAddrValue_formatIp (n : Nat) (h : n < 4294967296) : specAddrValue (formatIp n) = n := by
  have ha : Nat.land (n >>> 24) 255 < 256 := by
    have := land255 (n >>> 24)
    omega
  have hb : Nat.land (n >>> 16) 255 < 256 := by
    have := land255 (n >>> 16)
    omega
  have hc : Nat.land (n >>> 8) 255 < 256 := by
    have := land255 (n >>> 8)
    omega
  have hd : Nat.land n 255 < 256 := by
    have := land255 n
    omega
  obtain ⟨hpa, hna⟩ := octet_facts _ ha
  obtain ⟨hpb, hnb⟩ := octet_facts _ hb
  obtain ⟨hpc, hnc⟩ := octet_facts _ hc
  obtain ⟨hpd, hnd⟩ := octet_facts _ hd
  show specAddrValue (String.mk _) = n
  unfold specAddrValue
  simp only [String.data, List.append_assoc, List.cons_append]
  rw [splitOnChar_append _ _ _ hna, splitOnChar_append _ _ _ hnb, splitOnChar_append _ _ _ hnc,
    splitOnChar_no_sep _ _ hnd]
  simp only [List.map_cons, List.map_nil, hpa, hpb, hpc, hpd]
  rw [land255, land255, land255, land255, Nat.shiftRight_eq_div_pow, Nat.shiftRight_eq_div_pow,
    Nat.shiftRight_eq_div_pow]
  norm_num
  omega

/-! ## Helper lemmas: the range arm -/

theorem toUint32_sval_add (m j : Nat) (hm : m < 4294967296) (hj : m + j < 4294967296) :
    toUint32bits (sval m + j) = m + j := by
  unfold toUint32bits sval
  split <;> omega

theorem expandRange_same_side (sB eB : Nat) (he : eB < 4294967296) (hse : sB ≤ eB)
    (hside : sB < 2147483648 ↔ eB < 2147483648) :
    expandRange sB eB = (List.range (eB - sB + 1)).map (fun k => formatIp (sB + k)) := by
  have hs : sval sB ≤ sval eB := by
    unfold sval
    split <;> split <;> omega
  have hcnt : (sval eB + 1 - sval sB).toNat = eB - sB + 1 := by
    unfold sval
    split <;> split <;> omega
  simp only [expandRange]
  rw [if_pos hs, hcnt]
  apply List.map_congr_left
  intro k hk
  rw [List.mem_range] at hk
  rw [toUint32_sval_add sB k (by omega) (by omega)]

/-! ## Helper lemmas: the prefix arm -/

theorem shl32_neg_one (h : Nat) (hh : h ≤ 32) : shl32 (toUint32bits (-1)) h = 4294967296 - 2 ^ h := by
  unfold shl32 toUint32bits
  have h1 : ((-1 : Int) % 4294967296).toNat = 4294967295 := by decide
  rw [h1, Nat.shiftLeft_eq]
  have h2 : 1 ≤ 2 ^ h := Nat.one_le_two_pow
  have h3 : 2 ^ h ≤ 4294967296 := by
    calc 2 ^ h ≤ 2 ^ 32 := Nat.pow_le_pow_right (by norm_num) hh
    _ = 4294967296 := by norm_num
  omega

theorem expandPrefix_enumerates (base : Nat) (b : Int) (h24 : 24 ≤ b) (h31 : b ≤ 31) :
    expandPrefix base (some b) =
      (List.range (2 ^ (32 - b).toNat - 2)).map
        (fun (k : Nat) => formatIp (Nat.land base (4294967296 - 2 ^ (32 - b).toNat) + (k + 1))) := by
  simp only [expandPrefix]
  rw [if_pos ⟨by omega, by omega⟩]
  rw [shl32_neg_one _ (by omega)]
  have h2 : 1 ≤ 2 ^ (32 - b).toNat := Nat.one_le_two_pow
  have h3 : 2 ^ (32 - b).toNat ≤ 4294967296 := by
    calc 2 ^ (32 - b).toNat ≤ 2 ^ 32 := Nat.pow_le_pow_right (by norm_num) (by omega)
    _ = 4294967296 := by norm_num
  have hle : Nat.land base (4294967296 - 2 ^ (32 - b).toNat) ≤ 4294967296 - 2 ^ (32 - b).toNat :=
    Nat.and_le_right
  apply List.map_congr_left
  intro k hk
  rw [List.mem_range] at hk
  congr 1
  unfold toUint32bits sval
  split <;> omega

/-! ## C2 -/

/-- C2 (corrected at `parseIPRange`): the claimed-invalid targets
`Range("10.0.0.5","10.0.0.1")` (start > end) and `Prefix(base, 23)` are not
rejected with `InvalidTarget`; expansion totally succeeds and returns the
empty address sequence for both. -/
theorem expand_malformed_returns_empty_not_error :
    parseIPRange "10.0.0.5-10.0.0.1" = [] ∧ parseIPRange "10.0.0.0/23" = [] := by
  constructor
  · decide
  · decide

/-- C2 amended: expansion never fails. A range whose start exceeds its end (as
the signed 32-bit values the code compares) and a prefix whose length lies
outside [24,32] (including an unparseable NaN length) all yield the empty
address list, with no error and no probing (no addresses); a range endpoint
that is not a well-formed 4-octet address is not rejected either — its octets
are coerced (e.g. `10.0.0.300-10.0.0.301` scans `10.0.1.44` and `10.0.1.45`). -/
theorem expand_invalid_inputs_yield_empty :
    (∀ sB eB : Nat, sval eB < sval sB → expandRange sB eB = []) ∧
    (∀ (base : Nat) (b : Int), b < 24 ∨ 32 < b → expandPrefix base (some b) = []) ∧
    (∀ base : Nat, expandPrefix base none = []) ∧
    parseIPRange "10.0.0.300-10.0.0.301" = ["10.0.1.44", "10.0.1.45"] := by
  refine ⟨?_, ?_, ?_, by decide⟩
  · intro sB eB h
    simp only [expandRange]
    rw [if_neg (by omega)]
  · intro base b h
    simp only [expandPrefix]
    rw [if_neg (by omega)]
  · intro base
    rfl

theorem expand_invalid_inputs_yield_empty_witness :
    (sval 167772161 < sval 167772165 ∧ ((23 : Int) < 24 ∨ (32 : Int) < 23)) ∧
    expandRange 167772165 167772161 = [] ∧ expandPrefix 167772160 (some 23) = [] :=
  ⟨⟨by decide, by norm_num⟩,
    expand_invalid_inputs_yield_empty.1 167772165 167772161 (by decide),
    expand_invalid_inputs_yield_empty.2.1 167772160 23 (by norm_num)⟩

/-! ## C3 -/

/-- C3 (corrected, the `len = 32` part): `expand("10.1.10.0/32")` returns the
empty list, not the single network address the claim states (the loop
`for (i = 1; i < numHosts - 1; i++)` runs zero times when `numHosts = 1`). -/
theorem prefix_32_yields_empty_not_single :
    parseIPRange "10.1.10.0/32" = [] ∧ parseIPRange "10.1.10.0/32" ≠ ["10.1.10.0"] := by
  constructor
  · decide
  · decide

/-- C3 amended: for every valid `Prefix(base, len)` with 24 ≤ len ≤ 31, expand
returns exactly `networkAddress+1 .. networkAddress+hostCount-2` (hostCount =
2^(32−len); empty when len = 31), excluding the network and broadcast
addresses; but for len = 32 expand returns the empty list, not the network
address itself. `expand("10.1.10.0/30")` yields exactly
`["10.1.10.1","10.1.10.2"]`. -/
theorem prefix_expansion_amended :
    (∀ (base : Nat) (b : Int), 24 ≤ b → b ≤ 31 →
      expandPrefix base (some b) =
        (List.range (2 ^ (32 - b).toNat - 2)).map
          (fun (k : Nat) => formatIp (Nat.land base (4294967296 - 2 ^ (32 - b).toNat) + (k + 1)))) ∧
    (∀ base : Nat, expandPrefix base (some 32) = []) ∧
    parseIPRange "10.1.10.0/30" = ["10.1.10.1", "10.1.10.2"] := by
  refine ⟨fun base b h24 h31 => expandPrefix_enumerates base b h24 h31, ?_, by decide⟩
  intro base
  simp only [expandPrefix]
  rw [if_pos ⟨by norm_num, by norm_num⟩]
  norm_num

theorem prefix_expansion_amended_witness :
    ((24 : Int) ≤ 30 ∧ (30 : Int) ≤ 31) ∧
    expandPrefix 167840256 (some 30) =
      (List.range (2 ^ ((32 : Int) - 30).toNat - 2)).map
        (fun (k : Nat) => formatIp (Nat.land 167840256 (4294967296 - 2 ^ ((32 : Int) - 30).toNat) + (k + 1))) :=
  ⟨⟨by norm_num, by norm_num⟩, prefix_expansion_amended.1 167840256 30 (by norm_num) (by norm_num)⟩

/-! ## C4 -/

/-- C4 (corrected): a valid range that crosses the `128.0.0.0` boundary is
expanded to the empty list — not to `end-start+1` addresses — because the code
compares the endpoints as signed 32-bit values (`127.255.255.255` is positive,
`128.0.0.1` is negative). Unsigned, this range contains 3 addresses. -/
theorem range_crossing_sign_boundary_empty :
    parseIPRange "127.255.255.255-128.0.0.1" = [] ∧
    (parseIPRange "127.255.255.255-128.0.0.1").length ≠ 3 := by
  constructor
  · decide
  · decide

/-- C4 amended: for every valid range whose endpoints lie on the same side of
the `128.0.0.0` boundary (both signed-nonnegative or both signed-negative, with
`start ≤ end` as 32-bit numeric values), expansion returns exactly
`end − start + 1` addresses, strictly ascending by full 32-bit numeric value,
with no duplicates; a range crossing that boundary instead yields the empty
list (see the counterexample). -/
theorem range_expansion_same_side (sB eB : Nat) (he : eB < 4294967296) (hse : sB ≤ eB)
    (hside : sB < 2147483648 ↔ eB < 2147483648) :
    (expandRange sB eB).length = eB - sB + 1 ∧
    ((expandRange sB eB).map specAddrValue).Pairwise (· < ·) ∧
    (expandRange sB eB).Nodup ∧
    (∀ s2 e2 : Nat, s2 < 2147483648 → 2147483648 ≤ e2 → e2 < 4294967296 → expandRange s2 e2 = []) := by
  have hchar := expandRange_same_side sB eB he hse hside
  have hmapval : (expandRange sB eB).map specAddrValue =
      (List.range (eB - sB + 1)).map (fun k => sB + k) := by
    rw [hchar, List.map_map]
    apply List.map_congr_left
    intro k hk
    rw [List.mem_range] at hk
    show specAddrValue (formatIp (sB + k)) = sB + k
    exact specAddrValue_formatIp (sB + k) (by omega)
  refine ⟨?_, ?_, ?_, ?_⟩
  · rw [hchar, List.length_map, List.length_range]
  · rw [hmapval]
    exact List.pairwise_map.mpr ((List.pairwise_lt_range _).imp (fun hab => by omega))
  · rw [hchar]
    refine (List.nodup_range _).map_on ?_
    intro x hx y hy hxy
    rw [List.mem_range] at hx hy
    have := congrArg specAddrValue hxy
    rw [specAddrValue_formatIp (sB + x) (by omega), specAddrValue_formatIp (sB + y) (by omega)] at this
    omega
  · intro s2 e2 h1 h2 h3
    simp only [expandRange]
    have hlt : ¬ sval s2 ≤ sval e2 := by
      unfold sval
      split <;> split <;> omega
    rw [if_neg hlt]

theorem range_expansion_same_side_witness :
    (167840261 < 4294967296 ∧ 167840250 ≤ 167840261 ∧
      (167840250 < 2147483648 ↔ 167840261 < 2147483648)) ∧
    (expandRange 167840250 167840261).length = 167840261 - 167840250 + 1 ∧
    ((expandRange 167840250 167840261).map specAddrValue).Pairwise (· < ·) ∧
    (expandRange 167840250 167840261).Nodup ∧
    (∀ s2 e2 : Nat, s2 < 2147483648 → 2147483648 ≤ e2 → e2 < 4294967296 → expandRange s2 e2 = []) :=
  ⟨⟨by norm_num, by norm_num, by norm_num⟩,
    range_expansion_same_side 167840250 167840261 (by norm_num) (by norm_num) (by norm_num)⟩

/-! ## C10 -/

/-- C10: address expansion is total (this Lean definition of `parseIPRange` is
itself total, mirroring that no code path of the source throws), and any input
containing neither `-` nor `/` is returned unchanged — apart from trimming — as
a one-element target list, with no well-formedness check whatsoever. -/
theorem parseIPRange_passthrough_no_separator (input : String)
    (hd : input.data.contains '-' = false) (hs : input.data.contains '/' = false) :
    parseIPRange input = [String.mk (jsTrimChars input.data)] := by
  unfold parseIPRange
  rw [hd, hs]
  simp

theorem parseIPRange_passthrough_no_separator_witness :
    ((" definitely not an address ".data.contains '-' = false) ∧
      (" definitely not an address ".data.contains '/' = false)) ∧
    parseIPRange " definitely not an address " =
      [String.mk (jsTrimChars " definitely not an address ".data)] :=
  ⟨⟨by decide, by decide⟩,
    parseIPRange_passthrough_no_separator " definitely not an address " (by decide) (by decide)⟩

/-! ## C7 -/

/-- C7: `pingHost` never raises (this definition is total over every probe
outcome, including the subprocess-error case which the source catches); every
failure mode yields `status = inactive` with no `responseTime`; only a
successful reachability signal yields `status = active`, and `responseTime` is
present exactly when the status is `active` (carrying the measured elapsed
time). The result always echoes the probed ip and the `"icmp"` method. -/
theorem pingHost_total_inactive_on_failure (ip : String) (env : ProbeEnv) :
    ((pingHost ip env).status = PingStatus.active ↔ ∃ t, env = ProbeEnv.success t) ∧
    ((pingHost ip env).responseTime ≠ none ↔ (pingHost ip env).status = PingStatus.active) ∧
    (∀ t, env = ProbeEnv.success t → (pingHost ip env).responseTime = some t) ∧
    (pingHost ip env).ip = ip ∧ (pingHost ip env).method = "icmp" := by
  cases env <;> simp [pingHost]

theorem pingHost_total_inactive_on_failure_witness :
    ((pingHost "10.0.0.1" ProbeEnv.failure).status = PingStatus.active ↔
      ∃ t, ProbeEnv.failure = ProbeEnv.success t) ∧
    ((pingHost "10.0.0.1" ProbeEnv.failure).responseTime ≠ none ↔
      (pingHost "10.0.0.1" ProbeEnv.failure).status = PingStatus.active) ∧
    (∀ t, ProbeEnv.failure = ProbeEnv.success t →
      (pingHost "10.0.0.1" ProbeEnv.failure).responseTime = some t) ∧
    (pingHost "10.0.0.1" ProbeEnv.failure).ip = "10.0.0.1" ∧
    (pingHost "10.0.0.1" ProbeEnv.failure).method = "icmp" :=
  pingHost_total_inactive_on_failure "10.0.0.1" ProbeEnv.failure

/-! ## C5 -/

/-- C5 (corrected): requests with non-positive `timeout` or `batchSize` are not
rejected — both handlers accept them and proceed to scan (here with both values
zero, which in the streaming/JSON loops means the window index never
advances). -/
theorem nonpositive_options_accepted :
    handleJsonScanGate { target := some "10.0.0.1", timeout := some 0, batchSize := some 0 } =
      JsonDecision.proceed ["10.0.0.1"] 0 0 ∧
    handleStreamingScanGate { target := some "10.0.0.1", timeout := some "0", batchSize := some "0" } =
      StreamDecision.proceed ["10.0.0.1"] (some 0) (some 0) := by
  constructor
  · decide
  · decide

/-- C5 amended: neither handler validates `timeoutPerProbe` or
`concurrencyLimit`; a request is rejected (with the 400 "Target required"
response) precisely when `target` is missing or empty, independently of the
timeout and batch-size values — non-positive values pass straight through to
the scan loop. -/
theorem request_rejection_iff_missing_target :
    (∀ p : JsonParams, (∃ msg, handleJsonScanGate p = JsonDecision.rejected400 msg) ↔
      (p.target = none ∨ p.target = some "")) ∧
    (∀ p : StreamParams, (∃ msg, handleStreamingScanGate p = StreamDecision.rejected400 msg) ↔
      (p.target = none ∨ p.target = some "")) := by
  constructor
  · rintro ⟨t, tm, bs⟩
    cases t with
    | none => simp [handleJsonScanGate]
    | some s =>
      by_cases hs : s = ""
      · subst hs
        simp [handleJsonScanGate]
      · simp [handleJsonScanGate, hs]
  · rintro ⟨t, tm, bs⟩
    cases t with
    | none => simp [handleStreamingScanGate]
    | some s =>
      by_cases hs : s = ""
      · subst hs
        simp [handleStreamingScanGate]
      · simp [handleStreamingScanGate, hs]

theorem request_rejection_iff_missing_target_witness :
    (∃ msg, handleJsonScanGate { target := none, timeout := some 0, batchSize := some 0 } =
      JsonDecision.rejected400 msg) ↔
      (({ target := none, timeout := some 0, batchSize := some 0 } : JsonParams).target = none ∨
        ({ target := none, timeout := some 0, batchSize := some 0 } : JsonParams).target = some "") :=
  request_rejection_iff_missing_target.1 { target := none, timeout := some 0, batchSize := some 0 }

/-! ## Helper lemmas: the streaming scan state machine -/

theorem scanIpO_err (cap : Option Nat) (env : String → ProbeEnv) (total : Nat)
    (st : SseState) (e : StreamErr) (ip : String) :
    scanIpO cap env total (st, some e) ip = (st, some e) := by
  simp [scanIpO]

theorem foldl_scanIpO_err (cap : Option Nat) (env : String → ProbeEnv) (total : Nat)
    (l : List String) (st : SseState) (e : StreamErr) :
    l.foldl (scanIpO cap env total) (st, some e) = (st, some e) := by
  induction l with
  | nil => rfl
  | cons ip rest ih => rw [List.foldl_cons, scanIpO_err, ih]

theorem scanIpO_none_ok (env : String → ProbeEnv) (total : Nat) (st : SseState) (ip : String) :
    scanIpO none env total (st, none) ip =
      ({ delivered := st.delivered ++ [SseEvent.progress (st.results.length + 1) total ip,
           SseEvent.result (pingHost ip (env ip))],
         results := st.results ++ [pingHost ip (env ip)],
         probed := st.probed ++ [ip] }, none) := by
  simp [scanIpO, enqueueEv]

theorem scanIpO_some_fail (env : String → ProbeEnv) (total D : Nat) (st : SseState) (ip : String)
    (h : ¬ st.delivered.length < D) :
    scanIpO (some D) env total (st, none) ip = (st, some StreamErr.streamClosed) := by
  simp [scanIpO, enqueueEv, h]

theorem scanIpO_some_ok (env : String → ProbeEnv) (total D : Nat) (st : SseState) (ip : String)
    (h : st.delivered.length + 1 < D) :
    scanIpO (some D) env total (st, none) ip =
      ({ delivered := st.delivered ++ [SseEvent.progress (st.results.length + 1) total ip,
           SseEvent.result (pingHost ip (env ip))],
         results := st.results ++ [pingHost ip (env ip)],
         probed := st.probed ++ [ip] }, none) := by
  have h0 : st.delivered.length < D := by omega
  simp [scanIpO, enqueueEv, h0, h]

theorem foldl_jsChunksF {β : Type} (f : β → String → β) (bs : Nat) (hbs : 0 < bs) :
    ∀ (fuel : Nat) (l : List String) (init : β), l.length ≤ fuel →
      (jsChunksF bs fuel l).foldl (fun o batch => batch.foldl f o) init = l.foldl f init := by
  intro fuel
  induction fuel with
  | zero =>
    intro l init hl
    have : l = [] := List.eq_nil_of_length_eq_zero (by omega)
    subst this
    rfl
  | succ fu ih =>
    intro l init hl
    cases l with
    | nil => rfl
    | cons a l2 =>
      show ((a :: l2).take bs :: jsChunksF bs fu ((a :: l2).drop bs)).foldl
        (fun o batch => batch.foldl f o) init = (a :: l2).foldl f init
      rw [List.foldl_cons]
      rw [ih ((a :: l2).drop bs) (((a :: l2).take bs).foldl f init)
        (by simp only [List.length_drop, List.length_cons] at hl ⊢; omega)]
      rw [← List.foldl_append, List.take_append_drop]

theorem foldl_jsChunks {β : Type} (f : β → String → β) (bs : Nat) (hbs : 0 < bs)
    (l : List String) (init : β) :
    (jsChunks bs l).foldl (fun o batch => batch.foldl f o) init = l.foldl f init :=
  foldl_jsChunksF f bs hbs l.length l init (Nat.le_refl _)

theorem scanFold_none (env : String → ProbeEnv) (total : Nat) (ips : List String) :
    ∀ st : SseState,
      ips.foldl (scanIpO none env total) (st, none) =
        ({ delivered := st.delivered ++ traceFrom env total st.results.length ips,
           results := st.results ++ ips.map (fun ip => pingHost ip (env ip)),
           probed := st.probed ++ ips }, none) := by
  induction ips with
  | nil =>
    intro st
    simp [traceFrom]
  | cons ip rest ih =>
    intro st
    rw [List.foldl_cons, scanIpO_none_ok]
    rw [ih]
    simp [traceFrom, List.append_assoc]

theorem sseRunO_none_eq (env : String → ProbeEnv) (ips : List String) (bs : Nat) (hbs : 0 < bs) :
    sseRunO none env ips bs =
      ({ delivered := traceFrom env ips.length 0 ips ++
           [SseEvent.complete ips.length
             (activeCount (ips.map (fun ip => pingHost ip (env ip))))
             (ips.map (fun ip => pingHost ip (env ip)))],
         results := ips.map (fun ip => pingHost ip (env ip)),
         probed := ips }, none) := by
  unfold sseRunO
  rw [foldl_jsChunks (scanIpO none env ips.length) bs hbs ips (initSse, none)]
  rw [scanFold_none env ips.length ips initSse]
  simp [initSse, enqueueEv, List.length_map]

theorem pingHost_ip (ip : String) (env : ProbeEnv) : (pingHost ip env).ip = ip := by
  cases env <;> rfl

theorem traceFrom_filterMap_result (env : String → ProbeEnv) (total : Nat) :
    ∀ (j : Nat) (ips : List String), (traceFrom env total j ips).filterMap resultIpOf = ips := by
  intro j ips
  induction ips generalizing j with
  | nil => rfl
  | cons ip rest ih =>
    simp [traceFrom, resultIpOf, pingHost_ip, ih]

theorem traceFrom_no_complete (env : String → ProbeEnv) (total : Nat) :
    ∀ (j : Nat) (ips : List String), (traceFrom env total j ips).filter isCompleteEv = [] := by
  intro j ips
  induction ips generalizing j with
  | nil => rfl
  | cons ip rest ih =>
    simp [traceFrom, isCompleteEv, ih]

/-! ## C9 -/

/-- C9: the streaming handler is strictly sequential in expanded-address order
regardless of the batch-size option — the delivered event sequence equals, for
every positive batch size, the per-address concatenation of one `progress`
event (naming the address, with `current` = its 1-based position) immediately
followed by that address's `result` event, in exactly the expanded order,
terminated by the single `complete` summary. In particular at most one probe
is ever outstanding and results are never reordered by completion time. -/
theorem stream_trace_sequential (env : String → ProbeEnv) (ips : List String) (bs : Nat)
    (hbs : 0 < bs) :
    sseEvents env ips bs =
      traceFrom env ips.length 0 ips ++
        [SseEvent.complete ips.length
          (activeCount (ips.map (fun ip => pingHost ip (env ip))))
          (ips.map (fun ip => pingHost ip (env ip)))] := by
  unfold sseEvents
  rw [sseRunO_none_eq env ips bs hbs]

theorem stream_trace_sequential_witness :
    0 < 2 ∧
    sseEvents envAllFail ["10.0.0.1", "10.0.0.2", "10.0.0.3"] 2 =
      traceFrom envAllFail (["10.0.0.1", "10.0.0.2", "10.0.0.3"] : List String).length 0
          ["10.0.0.1", "10.0.0.2", "10.0.0.3"] ++
        [SseEvent.complete (["10.0.0.1", "10.0.0.2", "10.0.0.3"] : List String).length
          (activeCount ((["10.0.0.1", "10.0.0.2", "10.0.0.3"] : List String).map
            (fun ip => pingHost ip (envAllFail ip))))
          ((["10.0.0.1", "10.0.0.2", "10.0.0.3"] : List String).map
            (fun ip => pingHost ip (envAllFail ip)))] :=
  ⟨by decide, stream_trace_sequential envAllFail ["10.0.0.1", "10.0.0.2", "10.0.0.3"] 2 (by decide)⟩

/-! ## C8 -/

/-- C8: for every scan that runs to completion, the stream contains exactly one
`result` event per expanded address (in order, so each address appears exactly
once, `n` results in total), the final event is the single `complete` summary
with `totalHosts = n` and `activeHosts` equal to the number of active results,
and for an empty expansion the stream is the single zero-count `complete`. -/
theorem stream_result_complete_counts (env : String → ProbeEnv) (ips : List String) (bs : Nat)
    (hbs : 0 < bs) :
    (sseEvents env ips bs).filterMap resultIpOf = ips ∧
    ((sseEvents env ips bs).filter isCompleteEv).length = 1 ∧
    (sseEvents env ips bs).getLast? =
      some (SseEvent.complete ips.length
        (activeCount (ips.map (fun ip => pingHost ip (env ip))))
        (ips.map (fun ip => pingHost ip (env ip)))) ∧
    (ips = [] → sseEvents env ips bs = [SseEvent.complete 0 0 []]) := by
  have h : sseEvents env ips bs =
      traceFrom env ips.length 0 ips ++
        [SseEvent.complete ips.length
          (activeCount (ips.map (fun ip => pingHost ip (env ip))))
          (ips.map (fun ip => pingHost ip (env ip)))] := by
    unfold sseEvents
    rw [sseRunO_none_eq env ips bs hbs]
  refine ⟨?_, ?_, ?_, ?_⟩
  · rw [h, List.filterMap_append, traceFrom_filterMap_result]
    simp [resultIpOf]
  · rw [h, List.filter_append, traceFrom_no_complete]
    simp [isCompleteEv]
  · rw [h, List.getLast?_concat]
  · intro hips
    subst hips
    rw [h]
    simp [traceFrom, activeCount]

theorem stream_result_complete_counts_witness :
    0 < 4 ∧
    ((sseEvents envAllFail ["10.0.0.1", "10.0.0.2"] 4).filterMap resultIpOf = ["10.0.0.1", "10.0.0.2"] ∧
    ((sseEvents envAllFail ["10.0.0.1", "10.0.0.2"] 4).filter isCompleteEv).length = 1 ∧
    (sseEvents envAllFail ["10.0.0.1", "10.0.0.2"] 4).getLast? =
      some (SseEvent.complete (["10.0.0.1", "10.0.0.2"] : List String).length
        (activeCount ((["10.0.0.1", "10.0.0.2"] : List String).map
          (fun ip => pingHost ip (envAllFail ip))))
        ((["10.0.0.1", "10.0.0.2"] : List String).map (fun ip => pingHost ip (envAllFail ip)))) ∧
    ((["10.0.0.1", "10.0.0.2"] : List String) = [] →
      sseEvents envAllFail ["10.0.0.1", "10.0.0.2"] 4 = [SseEvent.complete 0 0 []])) :=
  ⟨by decide, stream_result_complete_counts envAllFail ["10.0.0.1", "10.0.0.2"] 4 (by decide)⟩

/-! ## Helper lemma: the run against a disconnecting consumer -/

theorem scanFold_cap (env : String → ProbeEnv) (total : Nat) (ips : List String) :
    ∀ (k : Nat) (st : SseState) (D : Nat),
      D = st.delivered.length + 2 * k → k < ips.length →
      ips.foldl (scanIpO (some D) env total) (st, none) =
        ({ delivered := st.delivered ++ traceFrom env total st.results.length (ips.take k),
           results := st.results ++ (ips.take k).map (fun ip => pingHost ip (env ip)),
           probed := st.probed ++ ips.take k }, some StreamErr.streamClosed) := by
  induction ips with
  | nil =>
    intro k st D hD hk
    simp at hk
  | cons ip rest ih =>
    intro k st D hD hk
    cases k with
    | zero =>
      rw [List.foldl_cons, scanIpO_some_fail env total D st ip (by omega)]
      rw [foldl_scanIpO_err]
      simp [traceFrom]
    | succ k2 =>
      rw [List.foldl_cons, scanIpO_some_ok env total D st ip (by omega)]
      rw [ih k2 _ D (by simp [List.length_append]; omega)
        (by simp at hk; omega)]
      simp [traceFrom, List.append_assoc, List.take_succ_cons]

theorem sseRunO_cap_eq (env : String → ProbeEnv) (ips : List String) (bs k : Nat)
    (hbs : 0 < bs) (hk : k < ips.length) :
    sseRunO (some (2 * k)) env ips bs =
      ({ delivered := traceFrom env ips.length 0 (ips.take k),
         results := (ips.take k).map (fun ip => pingHost ip (env ip)),
         probed := ips.take k }, some StreamErr.streamClosed) := by
  unfold sseRunO
  rw [foldl_jsChunks (scanIpO (some (2 * k)) env ips.length) bs hbs ips (initSse, none)]
  rw [scanFold_cap env ips.length ips k initSse (2 * k) (by simp [initSse]) hk]
  simp [initSse]

/-! ## C6 -/

/-- C6 (corrected): when the consumer disconnects after `k` of `n` addresses
have produced delivered `result` events, the code — which contains no
cancellation check of its own — stops only because the next
`controller.enqueue` throws: no further `result` or `complete` event is
delivered (the delivered trace is exactly the first `k` progress/result
pairs), no address beyond the `k`-th is probed (`probed = ips.take k`), but
what reaches the caller is the stream-closed enqueue error as an unhandled
rejection, not the spec's `ScanAborted` condition. -/
theorem disconnect_after_k_results (env : String → ProbeEnv) (ips : List String) (bs k : Nat)
    (hbs : 0 < bs) (hk : k < ips.length) :
    sseRunO (some (2 * k)) env ips bs =
      ({ delivered := traceFrom env ips.length 0 (ips.take k),
         results := (ips.take k).map (fun ip => pingHost ip (env ip)),
         probed := ips.take k }, some StreamErr.streamClosed) :=
  sseRunO_cap_eq env ips bs k hbs hk

theorem disconnect_after_k_results_witness :
    (0 < 10 ∧ 1 < (["10.0.0.1", "10.0.0.2", "10.0.0.3"] : List String).length) ∧
    sseRunO (some (2 * 1)) envAllFail ["10.0.0.1", "10.0.0.2", "10.0.0.3"] 10 =
      ({ delivered := traceFrom envAllFail (["10.0.0.1", "10.0.0.2", "10.0.0.3"] : List String).length 0
           ((["10.0.0.1", "10.0.0.2", "10.0.0.3"] : List String).take 1),
         results := ((["10.0.0.1", "10.0.0.2", "10.0.0.3"] : List String).take 1).map
           (fun ip => pingHost ip (envAllFail ip)),
         probed := (["10.0.0.1", "10.0.0.2", "10.0.0.3"] : List String).take 1 },
       some StreamErr.streamClosed) :=
  ⟨⟨by decide, by decide⟩,
    disconnect_after_k_results envAllFail ["10.0.0.1", "10.0.0.2", "10.0.0.3"] 10 1
      (by decide) (by decide)⟩

/-- C6, the falsifying run: a concrete three-address scan whose consumer
disconnects after the first address's `result` was delivered ends with the
`streamClosed` enqueue error — which is not the `ScanAborted` the claim says is
raised — after having delivered exactly one progress/result pair and probed
exactly one address. -/
theorem disconnect_raises_stream_closed_not_scan_aborted :
    sseRunO (some 2) envAllFail ["10.0.0.1", "10.0.0.2", "10.0.0.3"] 10 =
      ({ delivered := [SseEvent.progress 1 3 "10.0.0.1",
           SseEvent.result (PingResult.mk "10.0.0.1" PingStatus.inactive none "icmp")],
         results := [PingResult.mk "10.0.0.1" PingStatus.inactive none "icmp"],
         probed := ["10.0.0.1"] }, some StreamErr.streamClosed) ∧
    StreamErr.streamClosed ≠ StreamErr.scanAborted := by
  constructor
  · decide
  · decide

/-! ## C1 -/

/-- C1 (code bug): the synchronous JSON handler sorts its returned `results`
only by the last octet of each address, not by the full 32-bit value. For the
range `10.1.9.250-10.1.10.5`, which spans two /24 blocks, the order starts with
`10.1.10.0 .. 10.1.10.5` and only then `10.1.9.250 .. 10.1.9.255`, so the
outcome collection is not in ascending full-numeric-address order (the mapped
`specAddrValue` sequence is not even weakly sorted). -/
theorem json_scan_sorts_by_last_octet_only :
    (handleJsonScanResults envAllFail (parseIPRange "10.1.9.250-10.1.10.5")).map (fun r => r.ip) =
      ["10.1.10.0", "10.1.10.1", "10.1.10.2", "10.1.10.3", "10.1.10.4", "10.1.10.5",
       "10.1.9.250", "10.1.9.251", "10.1.9.252", "10.1.9.253", "10.1.9.254", "10.1.9.255"] ∧
    ¬ ((handleJsonScanResults envAllFail (parseIPRange "10.1.9.250-10.1.10.5")).map
        (fun r => specAddrValue r.ip)).Pairwise (· ≤ ·) := by
  constructor
  · decide
  · decide
